import Mathlib

set_option maxRecDepth 40000

/-!
Verification development for the `hashcache` repository
(`src/hashcache/hashcache.py`).

The single source file defines a decorator `hashcache(directory)` whose inner
`wrapper` function:
  * builds `cache_keys = [func.__name__, args, kwargs, cache_nonce]`,
  * serializes it with `pickle.dumps` (or `dill.dumps` when `use_dill=True`,
    raising `ImportError` when dill is not installed),
  * hashes the bytes with `hashlib.md5` and uses
    `f"{digest.hexdigest()}.pkl"` inside `directory` as the record path,
  * when `use_cache and not refresh_cache and os.path.exists(path)`, tries to
    `pickle.load` the file, returning the value on success and logging a
    warning / falling through on `EOFError` / `pickle.PickleError`,
  * otherwise (and on fall-through) computes `result = func(*args, **kwargs)`
    and unconditionally writes `pickle.dump(result, file)` to the record path
    (the `open(path, "wb")` truncates the file before `pickle.dump` runs).

This file embeds that behaviour shallowly:
  * `HashCache.V` is the domain of Python values handled by the model
    (None, bool, int, str, list, tuple, dict, opaque object), written as a
    single inductive so that every definition is structurally recursive and
    kernel-computable.  List and dict spines are constructors of the same
    inductive (`lnil`/`lcons`, `enil`/`econs`).
  * `HashCache.enc` / `HashCache.dec` model `pickle.dumps` / `pickle.loads`
    as a deterministic token-level prefix code.  Real pickle serializes dict
    entries in insertion order, which the model preserves.  The opcode-level
    byte format of CPython pickles is not reproduced; what the claims rely on
    is determinism, insertion-order sensitivity, and the roundtrip property,
    all of which hold of the real format and are proved for the model.
  * `HashCache.md5Hex` is a genuine MD5 implementation over bytes
    (validated below against the standard test vectors).
  * `HashCache.wrapper` is the state-passing translation of the `wrapper`
    function, over a filesystem modelled as an association list from paths
    to byte contents, with an invocation counter for the wrapped computation
    and a log of emitted warnings.
-/

namespace HashCache

/-- Domain of Python values appearing in call signatures and results.
`vobj id p` models an instance of a user-defined type with identity `id`;
`p` records whether `pickle` can serialize it (`pickle.dumps` raises
`PicklingError` on objects such as lambdas or open files).  `lnil`/`lcons`
build the spines of lists and tuples, `enil`/`econs` the insertion-ordered
entry spines of dicts. -/
inductive V where
  | vnone : V
  | vbool : Bool → V
  | vint : Int → V
  | vstr : String → V
  | vobj : Nat → Bool → V
  | vlist : V → V
  | vtuple : V → V
  | vdict : V → V
  | lnil : V
  | lcons : V → V → V
  | enil : V
  | econs : String → V → V → V
deriving DecidableEq

/-- Build a list/tuple spine from a Lean list of values. -/
def listV : List V → V
  | [] => V.lnil
  | v :: r => V.lcons v (listV r)

/-- Build a dict entry spine from a Lean association list, preserving the
insertion order of the keyword arguments as supplied by the caller
(Python dicts are insertion-ordered and `pickle` serializes them in that
order). -/
def entsV : List (String × V) → V
  | [] => V.enil
  | (k, v) :: r => V.econs k v (entsV r)

/-- Zigzag embedding of integers into naturals, used to tokenize `int`s. -/
def zig : Int → Nat
  | Int.ofNat n => 2 * n
  | Int.negSucc n => 2 * n + 1

/-- Inverse of `zig`. -/
def unzig (t : Nat) : Int :=
  if t % 2 = 0 then Int.ofNat (t / 2) else Int.negSucc (t / 2)

theorem unzig_zig (i : Int) : unzig (zig i) = i := by
  cases i with
  | ofNat n =>
    simp only [zig, unzig]
    rw [if_pos (by omega)]
    congr 1
    omega
  | negSucc n =>
    simp only [zig, unzig]
    rw [if_neg (by omega)]
    congr 1
    omega

/-- Token-level serialization of a value: the model of the byte string
produced by `pickle.dumps`.  It is a prefix code: every constructor is
announced by a distinct tag token.  Dict entries are emitted in insertion
order (as CPython's pickle does); no canonical reordering is applied. -/
def enc : V → List Nat
  | V.vnone => [0]
  | V.vbool b => [1, cond b 1 0]
  | V.vint i => [2, zig i]
  | V.vstr s => 3 :: s.data.length :: s.data.map Char.toNat
  | V.vobj i p => [7, i, cond p 1 0]
  | V.vlist xs => 4 :: enc xs
  | V.vtuple xs => 5 :: enc xs
  | V.vdict es => 6 :: enc es
  | V.lnil => [8]
  | V.lcons h t => 9 :: (enc h ++ enc t)
  | V.enil => [10]
  | V.econs k v t => 11 :: k.data.length :: (k.data.map Char.toNat ++ (enc v ++ enc t))

/-- Structural size of a value; a lower bound for the fuel needed by `dec`. -/
def sizeV : V → Nat
  | V.vnone => 1
  | V.vbool _ => 1
  | V.vint _ => 1
  | V.vstr _ => 1
  | V.vobj _ _ => 1
  | V.vlist xs => 1 + sizeV xs
  | V.vtuple xs => 1 + sizeV xs
  | V.vdict es => 1 + sizeV es
  | V.lnil => 1
  | V.lcons h t => 1 + sizeV h + sizeV t
  | V.enil => 1
  | V.econs _ v t => 1 + sizeV v + sizeV t

/-- Decode `n` character tokens from the stream. -/
def decChars : Nat → List Nat → Option (List Char × List Nat)
  | 0, r => some ([], r)
  | _ + 1, [] => none
  | n + 1, t :: r => (decChars n r).map fun p => (Char.ofNat t :: p.1, p.2)

/-- Token-level deserialization, the model of `pickle.loads`.  Structurally
recursive on an explicit fuel argument so that it evaluates inside the
kernel; `pickleLoads` below instantiates the fuel with the stream length,
which suffices for every encoded value.  Any stream that is not a valid
encoding (in particular the empty stream, modelling a zero-byte file)
decodes to `none`, modelling `EOFError` / `pickle.PickleError`. -/
def dec : Nat → List Nat → Option (V × List Nat)
  | 0, _ => none
  | fuel + 1, ts =>
    match ts with
    | 0 :: r => some (V.vnone, r)
    | 1 :: 0 :: r => some (V.vbool false, r)
    | 1 :: 1 :: r => some (V.vbool true, r)
    | 2 :: t :: r => some (V.vint (unzig t), r)
    | 3 :: n :: r => (decChars n r).map fun p => (V.vstr (String.mk p.1), p.2)
    | 4 :: r => (dec fuel r).map fun p => (V.vlist p.1, p.2)
    | 5 :: r => (dec fuel r).map fun p => (V.vtuple p.1, p.2)
    | 6 :: r => (dec fuel r).map fun p => (V.vdict p.1, p.2)
    | 7 :: i :: 0 :: r => some (V.vobj i false, r)
    | 7 :: i :: 1 :: r => some (V.vobj i true, r)
    | 8 :: r => some (V.lnil, r)
    | 9 :: r =>
      (dec fuel r).bind fun p =>
        (dec fuel p.2).map fun q => (V.lcons p.1 q.1, q.2)
    | 10 :: r => some (V.enil, r)
    | 11 :: n :: r =>
      (decChars n r).bind fun p =>
        (dec fuel p.2).bind fun q =>
          (dec fuel q.2).map fun w => (V.econs (String.mk p.1) q.1 w.1, w.2)
    | _ => none

theorem decChars_enc (cs : List Char) (r : List Nat) :
    decChars cs.length (cs.map Char.toNat ++ r) = some (cs, r) := by
  induction cs with
  | nil => rfl
  | cons c cs ih =>
    have h1 : decChars (cs.length + 1) (Char.toNat c :: (cs.map Char.toNat ++ r)) =
        (decChars cs.length (cs.map Char.toNat ++ r)).map
          fun p => (Char.ofNat (Char.toNat c) :: p.1, p.2) := rfl
    simp only [List.length_cons, List.map_cons, List.cons_append]
    rw [h1, ih, Option.map_some', Char.ofNat_toNat]

theorem sizeV_pos (v : V) : 1 ≤ sizeV v := by
  cases v <;> simp [sizeV] <;> omega

/-- Roundtrip of the codec: decoding an encoded value (with any fuel at
least its size, and any trailing stream) recovers the value exactly. -/
theorem dec_enc (v : V) : ∀ (fuel : Nat) (r : List Nat),
    sizeV v ≤ fuel → dec fuel (enc v ++ r) = some (v, r) := by
  induction v with
  | vnone =>
    intro fuel r h
    cases fuel with
    | zero => exact absurd (Nat.le_trans (sizeV_pos _) h) (by omega)
    | succ f => rfl
  | vbool b =>
    intro fuel r h
    cases fuel with
    | zero => exact absurd (Nat.le_trans (sizeV_pos _) h) (by omega)
    | succ f => cases b <;> rfl
  | vint i =>
    intro fuel r h
    cases fuel with
    | zero => exact absurd (Nat.le_trans (sizeV_pos _) h) (by omega)
    | succ f =>
      have h1 : dec (f + 1) (2 :: zig i :: r) = some (V.vint (unzig (zig i)), r) := rfl
      simpa [enc, unzig_zig] using h1
  | vstr s =>
    intro fuel r h
    cases fuel with
    | zero => exact absurd (Nat.le_trans (sizeV_pos _) h) (by omega)
    | succ f =>
      have h1 : dec (f + 1) (3 :: s.data.length :: (s.data.map Char.toNat ++ r)) =
          (decChars s.data.length (s.data.map Char.toNat ++ r)).map
            fun p => (V.vstr (String.mk p.1), p.2) := rfl
      simp only [enc, List.cons_append]
      rw [h1, decChars_enc]
      rfl
  | vobj i p =>
    intro fuel r h
    cases fuel with
    | zero => exact absurd (Nat.le_trans (sizeV_pos _) h) (by omega)
    | succ f => cases p <;> rfl
  | vlist xs ih =>
    intro fuel r h
    cases fuel with
    | zero => exact absurd (Nat.le_trans (sizeV_pos _) h) (by omega)
    | succ f =>
      have h1 : dec (f + 1) (4 :: (enc xs ++ r)) =
          (dec f (enc xs ++ r)).map fun p => (V.vlist p.1, p.2) := rfl
      simp only [enc, List.cons_append]
      rw [h1, ih f r (by simp [sizeV] at h; omega)]
      rfl
  | vtuple xs ih =>
    intro fuel r h
    cases fuel with
    | zero => exact absurd (Nat.le_trans (sizeV_pos _) h) (by omega)
    | succ f =>
      have h1 : dec (f + 1) (5 :: (enc xs ++ r)) =
          (dec f (enc xs ++ r)).map fun p => (V.vtuple p.1, p.2) := rfl
      simp only [enc, List.cons_append]
      rw [h1, ih f r (by simp [sizeV] at h; omega)]
      rfl
  | vdict es ih =>
    intro fuel r h
    cases fuel with
    | zero => exact absurd (Nat.le_trans (sizeV_pos _) h) (by omega)
    | succ f =>
      have h1 : dec (f + 1) (6 :: (enc es ++ r)) =
          (dec f (enc es ++ r)).map fun p => (V.vdict p.1, p.2) := rfl
      simp only [enc, List.cons_append]
      rw [h1, ih f r (by simp [sizeV] at h; omega)]
      rfl
  | lnil =>
    intro fuel r h
    cases fuel with
    | zero => exact absurd (Nat.le_trans (sizeV_pos _) h) (by omega)
    | succ f => rfl
  | lcons hd tl ih1 ih2 =>
    intro fuel r h
    cases fuel with
    | zero => exact absurd (Nat.le_trans (sizeV_pos _) h) (by omega)
    | succ f =>
      have h1 : dec (f + 1) (9 :: (enc hd ++ (enc tl ++ r))) =
          (dec f (enc hd ++ (enc tl ++ r))).bind fun p =>
            (dec f p.2).map fun q => (V.lcons p.1 q.1, q.2) := rfl
      simp only [enc, List.cons_append, List.append_assoc]
      rw [h1, ih1 f (enc tl ++ r) (by simp [sizeV] at h; omega)]
      rw [Option.some_bind]
      rw [ih2 f r (by simp [sizeV] at h; omega)]
      rfl
  | enil =>
    intro fuel r h
    cases fuel with
    | zero => exact absurd (Nat.le_trans (sizeV_pos _) h) (by omega)
    | succ f => rfl
  | econs k vv tl ih1 ih2 =>
    intro fuel r h
    cases fuel with
    | zero => exact absurd (Nat.le_trans (sizeV_pos _) h) (by omega)
    | succ f =>
      have h1 : dec (f + 1)
          (11 :: k.data.length :: (k.data.map Char.toNat ++ (enc vv ++ (enc tl ++ r)))) =
          (decChars k.data.length (k.data.map Char.toNat ++ (enc vv ++ (enc tl ++ r)))).bind
            fun p => (dec f p.2).bind fun q =>
              (dec f q.2).map fun w => (V.econs (String.mk p.1) q.1 w.1, w.2) := rfl
      simp only [enc, List.cons_append, List.append_assoc]
      rw [h1, decChars_enc]
      rw [Option.some_bind]
      rw [ih1 f (enc tl ++ r) (by simp [sizeV] at h; omega)]
      rw [Option.some_bind]
      rw [ih2 f r (by simp [sizeV] at h; omega)]
      rfl

/-- Every value needs at most as much fuel as its encoding has tokens. -/
theorem sizeV_le_enc_length (v : V) : sizeV v ≤ (enc v).length := by
  induction v <;> simp_all [enc, sizeV, List.length_append] <;> omega

/-- Whether `pickle` can serialize the value.  `pickle.dumps` fails exactly
when some reachable sub-value is an unpicklable object. -/
def picklable : V → Bool
  | V.vobj _ p => p
  | V.vlist xs => picklable xs
  | V.vtuple xs => picklable xs
  | V.vdict es => picklable es
  | V.lcons h t => picklable h && picklable t
  | V.econs _ v t => picklable v && picklable t
  | _ => true

/-- Model of `pickle.dumps`: the token encoding when the value is
serializable, failure (a raised `PicklingError`) otherwise. -/
def pickleDumps (v : V) : Option (List Nat) :=
  if picklable v then some (enc v) else none

/-- Model of `dill.dumps`.  dill extends pickle to values pickle rejects
(it captures behavioral state), so the model treats it as total; its
byte-level differences from pickle are irrelevant to every claim. -/
def dillDumps (v : V) : Option (List Nat) := some (enc v)

/-- Model of `pickle.load` on a file's bytes: decode one value from the
stream (trailing bytes are ignored, as `pickle.load` leaves them unread).
The stream length itself is enough fuel for any encoded value. -/
def pickleLoads (bs : List Nat) : Option V :=
  (dec bs.length bs).map Prod.fst

/-- `pickle.loads` inverts `pickle.dumps` on every value. -/
theorem pickleLoads_enc (v : V) : pickleLoads (enc v) = some v := by
  have h := dec_enc v (enc v).length [] (sizeV_le_enc_length v)
  rw [List.append_nil] at h
  unfold pickleLoads
  rw [h]
  rfl

/-- The serialization is injective: identical token streams can only come
from identical values.  Immediate from the roundtrip. -/
theorem enc_injective {u v : V} (h : enc u = enc v) : u = v := by
  have hu := pickleLoads_enc u
  rw [h, pickleLoads_enc v] at hu
  exact (Option.some_inj.mp hu).symm

/-! ## MD5

A faithful MD5 implementation over byte lists (each entry `< 256`),
mirroring `hashlib.md5(...).hexdigest()`.  Validated below against the
standard test vectors. -/

/-- Truncate to a 32-bit word. -/
def u32 (n : Nat) : Nat := n % 4294967296

/-- 32-bit left rotation, expressed arithmetically. -/
def rotl32 (x s : Nat) : Nat :=
  (x * 2 ^ s + x / 2 ^ (32 - s)) % 4294967296

/-- 32-bit bitwise complement of a word already reduced mod `2^32`. -/
def not32 (x : Nat) : Nat := 4294967295 - x % 4294967296

/-- The 64 MD5 sine-derived constants. -/
def md5K : List Nat :=
  [0xd76aa478, 0xe8c7b756, 0x242070db, 0xc1bdceee,
   0xf57c0faf, 0x4787c62a, 0xa8304613, 0xfd469501,
   0x698098d8, 0x8b44f7af, 0xffff5bb1, 0x895cd7be,
   0x6b901122, 0xfd987193, 0xa679438e, 0x49b40821,
   0xf61e2562, 0xc040b340, 0x265e5a51, 0xe9b6c7aa,
   0xd62f105d, 0x02441453, 0xd8a1e681, 0xe7d3fbc8,
   0x21e1cde6, 0xc33707d6, 0xf4d50d87, 0x455a14ed,
   0xa9e3e905, 0xfcefa3f8, 0x676f02d9, 0x8d2a4c8a,
   0xfffa3942, 0x8771f681, 0x6d9d6122, 0xfde5380c,
   0xa4beea44, 0x4bdecfa9, 0xf6bb4b60, 0xbebfbc70,
   0x289b7ec6, 0xeaa127fa, 0xd4ef3085, 0x04881d05,
   0xd9d4d039, 0xe6db99e5, 0x1fa27cf8, 0xc4ac5665,
   0xf4292244, 0x432aff97, 0xab9423a7, 0xfc93a039,
   0x655b59c3, 0x8f0ccc92, 0xffeff47d, 0x85845dd1,
   0x6fa87e4f, 0xfe2ce6e0, 0xa3014314, 0x4e0811a1,
   0xf7537e82, 0xbd3af235, 0x2ad7d2bb, 0xeb86d391]

/-- The 64 MD5 per-round shift amounts. -/
def md5S : List Nat :=
  [7, 12, 17, 22, 7, 12, 17, 22, 7, 12, 17, 22, 7, 12, 17, 22,
   5, 9, 14, 20, 5, 9, 14, 20, 5, 9, 14, 20, 5, 9, 14, 20,
   4, 11, 16, 23, 4, 11, 16, 23, 4, 11, 16, 23, 4, 11, 16, 23,
   6, 10, 15, 21, 6, 10, 15, 21, 6, 10, 15, 21, 6, 10, 15, 21]

/-- Round function of MD5 (F, G, H, I depending on the step index). -/
def md5F (i b c d : Nat) : Nat :=
  if i < 16 then (b &&& c) ||| (not32 b &&& d)
  else if i < 32 then (d &&& b) ||| (not32 d &&& c)
  else if i < 48 then b ^^^ c ^^^ d
  else c ^^^ (b ||| not32 d)

/-- Message-word index used at step `i`. -/
def md5G (i : Nat) : Nat :=
  if i < 16 then i
  else if i < 32 then (5 * i + 1) % 16
  else if i < 48 then (3 * i + 5) % 16
  else (7 * i) % 16

/-- One of the 64 steps of an MD5 block computation. -/
def md5Step (m : List Nat) (st : Nat × Nat × Nat × Nat) (i : Nat) :
    Nat × Nat × Nat × Nat :=
  match st with
  | (a, b, c, d) =>
    let t := u32 (md5F i b c d + a + md5K.getD i 0 + m.getD (md5G i) 0)
    (d, u32 (b + rotl32 t (md5S.getD i 0)), b, c)

/-- Little-endian 32-bit word at index `j` of a 64-byte block. -/
def blockWord (blk : List Nat) (j : Nat) : Nat :=
  blk.getD (4 * j) 0 + 256 * blk.getD (4 * j + 1) 0 +
    65536 * blk.getD (4 * j + 2) 0 + 16777216 * blk.getD (4 * j + 3) 0

/-- Process one 64-byte block. -/
def md5Block (st : Nat × Nat × Nat × Nat) (blk : List Nat) :
    Nat × Nat × Nat × Nat :=
  let m := (List.range 16).map (blockWord blk)
  match st, (List.range 64).foldl (md5Step m) st with
  | (a0, b0, c0, d0), (a, b, c, d) =>
    (u32 (a0 + a), u32 (b0 + b), u32 (c0 + c), u32 (d0 + d))

/-- Process `n` consecutive 64-byte blocks of the padded message. -/
def md5Go : Nat → (Nat × Nat × Nat × Nat) → List Nat → Nat × Nat × Nat × Nat
  | 0, st, _ => st
  | n + 1, st, bytes => md5Go n (md5Block st (bytes.take 64)) (bytes.drop 64)

/-- The 8 little-endian bytes of the 64-bit message bit length. -/
def lenBytes8 (n : Nat) : List Nat :=
  [n % 256, n / 256 % 256, n / 65536 % 256, n / 16777216 % 256,
   n / 4294967296 % 256, n / 1099511627776 % 256,
   n / 281474976710656 % 256, n / 72057594037927936 % 256]

/-- MD5 padding: a `0x80` byte, zeros to 56 mod 64, then the bit length. -/
def md5Pad (msg : List Nat) : List Nat :=
  msg ++ 128 :: List.replicate ((119 - msg.length % 64) % 64) 0 ++
    lenBytes8 (8 * msg.length)

/-- The four final state words of MD5 on a byte list. -/
def md5Words (msg : List Nat) : Nat × Nat × Nat × Nat :=
  let padded := md5Pad msg
  md5Go (padded.length / 64) (1732584193, 4023233417, 2562383102, 271733878) padded

/-- Little-endian bytes of a 32-bit word. -/
def wordLE (w : Nat) : List Nat :=
  [w % 256, w / 256 % 256, w / 65536 % 256, w / 16777216 % 256]

/-- The 16 digest bytes of MD5. -/
def md5DigestBytes (msg : List Nat) : List Nat :=
  match md5Words msg with
  | (a, b, c, d) => wordLE a ++ wordLE b ++ wordLE c ++ wordLE d

/-- Lowercase hex digit. -/
def hexChar (n : Nat) : Char :=
  Char.ofNat (if n < 10 then 48 + n else 87 + n)

/-- Two lowercase hex digits of a byte. -/
def byteHexChars (b : Nat) : List Char :=
  [hexChar (b / 16 % 16), hexChar (b % 16)]

/-- `hashlib.md5(msg).hexdigest()`: 32 lowercase hex characters. -/
def md5Hex (msg : List Nat) : String :=
  String.mk (((md5DigestBytes msg).map byteHexChars).flatten)

theorem md5Hex_empty_vector : md5Hex [] = "d41d8cd98f00b204e9800998ecf8427e" := by
  decide

theorem md5Hex_abc_vector :
    md5Hex [97, 98, 99] = "900150983cd24fb0d6963f7d28e17f72" := by
  decide

/-! ## The wrapper

State-passing translation of the `wrapper` closure produced by
`hashcache(directory)` applied to a computation `func`. -/

/-- Four little-endian bytes for one serialization token, flattening the
token stream into the byte string fed to `hashlib.md5`.  (Tokens arising
from call signatures — tags, lengths, character codes, zigzagged small
ints — fit in 32 bits; the flattening is deterministic for all tokens.) -/
def tokenBytes (t : Nat) : List Nat :=
  [t % 256, t / 256 % 256, t / 65536 % 256, t / 16777216 % 256]

/-- The byte string hashed by `hashlib.md5(cache_keys)`. -/
def tokensToBytes (ts : List Nat) : List Nat :=
  (ts.map tokenBytes).flatten

/-- `hashed_cache_keys.hexdigest()` for a serialized signature. -/
def keyHex (ks : List Nat) : String := md5Hex (tokensToBytes ks)

/-- `filename = f"{hashed_cache_keys.hexdigest()}.pkl"`. -/
def recordFileName (ks : List Nat) : String := keyHex ks ++ ".pkl"

/-- `cache_keys = [func.__name__, args, kwargs, cache_nonce]`: the Python
list holding the function name, the positional-argument tuple, the
keyword-argument dict (in the caller's insertion order) and the nonce. -/
def sigVal (funcName : String) (args : List V) (kwargs : List (String × V))
    (nonce : V) : V :=
  V.vlist (V.lcons (V.vstr funcName)
    (V.lcons (V.vtuple (listV args))
      (V.lcons (V.vdict (entsV kwargs))
        (V.lcons nonce V.lnil))))

/-- The filesystem: an association list from paths to byte contents. -/
abbrev Fs := List (String × List Nat)

/-- `os.path.exists` + `open(path, "rb").read()`: the bytes at a path. -/
def fsFind : Fs → String → Option (List Nat)
  | [], _ => none
  | (p, bs) :: rest, q => if p = q then some bs else fsFind rest q

/-- Writing a file: replace the contents at the path, or create the file. -/
def fsWrite : Fs → String → List Nat → Fs
  | [], q, out => [(q, out)]
  | (p, bs) :: rest, q, out =>
    if p = q then (q, out) :: rest else (p, bs) :: fsWrite rest q out

theorem fsFind_fsWrite_self (fs : Fs) (p : String) (bs : List Nat) :
    fsFind (fsWrite fs p bs) p = some bs := by
  induction fs with
  | nil => simp [fsFind, fsWrite]
  | cons hd rest ih =>
    by_cases h : hd.1 = p
    · simp [fsFind, fsWrite, h]
    · simp [fsFind, fsWrite, h, ih]

/-- Mutable state threaded through a call of the wrapped computation:
the cache directory's files, how many times the underlying computation has
run, and the warnings logged so far. -/
structure WState where
  fs : Fs
  calls : Nat
  log : List String
deriving DecidableEq

/-- Exceptions the wrapper can propagate: `pickle.PicklingError` (the
spec's `SerializationError`) and the `ImportError` raised when dill is
requested but not installed (the spec's `DependencyMissingError`). -/
inductive CacheErr where
  | serializationError : CacheErr
  | dependencyMissingError : CacheErr
deriving DecidableEq

/-- Outcome of the lookup section of the wrapper: a deserialized hit, a
missing file, or a file whose bytes fail to deserialize. -/
inductive LookupOutcome where
  | hit : V → LookupOutcome
  | missAbsent : LookupOutcome
  | missCorrupt : LookupOutcome
deriving DecidableEq

/-- Lines 62-68 of the source: check `os.path.exists(cache_path)`, open and
`pickle.load` it, distinguishing success from `EOFError`/`PickleError`. -/
def lookupRecord (fs : Fs) (path : String) : LookupOutcome :=
  match fsFind fs path with
  | none => LookupOutcome.missAbsent
  | some bs =>
    match pickleLoads bs with
    | some v => LookupOutcome.hit v
    | none => LookupOutcome.missCorrupt

/-- Lines 72-74 of the source: `with open(cache_path, "wb") as file:
pickle.dump(result, file)`.  The `open(..., "wb")` truncates the file
before `pickle.dump` runs, so when serialization fails the path is left
holding a truncated (here: empty) file and the error propagates. -/
def storeRecord (fs : Fs) (path : String) (v : V) : Fs × Except CacheErr Unit :=
  let fs1 := fsWrite fs path []
  match pickleDumps v with
  | some bs => (fsWrite fs1 path bs, Except.ok ())
  | none => (fs1, Except.error CacheErr.serializationError)

/-- The warning message logged on a corrupted or empty cache file. -/
def corruptWarning (path : String) : String :=
  "Cache file " ++ path ++ " is corrupted or empty. Recomputing result."

/-- Lines 71-76 of the source: run the computation, store the result,
return it (or propagate the serialization failure). -/
def computeAndStore (f : List V → List (String × V) → V) (args : List V)
    (kwargs : List (String × V)) (path : String) (st : WState) :
    WState × Except CacheErr V :=
  let result := f args kwargs
  let pr := storeRecord st.fs path result
  match pr.2 with
  | Except.ok _ => (⟨pr.1, st.calls + 1, st.log⟩, Except.ok result)
  | Except.error e => (⟨pr.1, st.calls + 1, st.log⟩, Except.error e)

/-- The `wrapper` closure.  `directory` and `funcName` come from the
decorator; `f` is the wrapped computation (modelled as a pure function of
the forwarded positional and keyword arguments); `dillAvailable` models
whether `import dill` succeeds in this environment; the remaining
parameters mirror the Python signature
`wrapper(*args, use_cache=True, refresh_cache=False, cache_nonce=None,
use_dill=False, **kwargs)`. -/
def wrapper (directory funcName : String) (f : List V → List (String × V) → V)
    (dillAvailable : Bool) (args : List V) (kwargs : List (String × V))
    (useCache refreshCache : Bool) (cacheNonce : V) (useDill : Bool)
    (st : WState) : WState × Except CacheErr V :=
  let sigv := sigVal funcName args kwargs cacheNonce
  let encoded : Except CacheErr (List Nat) :=
    if useDill then
      if dillAvailable then
        match dillDumps sigv with
        | some bs => Except.ok bs
        | none => Except.error CacheErr.serializationError
      else Except.error CacheErr.dependencyMissingError
    else
      match pickleDumps sigv with
      | some bs => Except.ok bs
      | none => Except.error CacheErr.serializationError
  match encoded with
  | Except.error e => (st, Except.error e)
  | Except.ok ks =>
    let path := directory ++ "/" ++ recordFileName ks
    if useCache && !refreshCache then
      match lookupRecord st.fs path with
      | LookupOutcome.hit v => (st, Except.ok v)
      | LookupOutcome.missAbsent => computeAndStore f args kwargs path st
      | LookupOutcome.missCorrupt =>
        computeAndStore f args kwargs path
          ⟨st.fs, st.calls, st.log ++ [corruptWarning path]⟩
    else
      computeAndStore f args kwargs path st

/-- Python truthiness of a value, as used by `if use_cache and not
refresh_cache` and `if use_dill` when the caller passes non-bool values. -/
def truthy : V → Bool
  | V.vnone => false
  | V.vbool b => b
  | V.vint i => decide (i ≠ 0)
  | V.vstr s => decide (s.data ≠ [])
  | V.vobj _ _ => true
  | V.vlist xs => truthy xs
  | V.vtuple xs => truthy xs
  | V.vdict es => truthy es
  | V.lnil => false
  | V.lcons _ _ => true
  | V.enil => false
  | V.econs _ _ _ => true

/-- Lookup of a keyword argument by name in the caller's keyword list. -/
def kwFind : List (String × V) → String → Option V
  | [], _ => none
  | (k, v) :: r, q => if k = q then some v else kwFind r q

/-- The names of the four call-time control options the wrapper's
keyword-only parameters capture. -/
def controlNames : List String :=
  ["use_cache", "refresh_cache", "cache_nonce", "use_dill"]

/-- Python's binding of `**kwargs`: the caller's keyword arguments minus
the four keyword-only control parameters, in the caller's order. -/
def dropControls : List (String × V) → List (String × V)
  | [] => []
  | (k, v) :: r =>
    if controlNames.contains k then dropControls r else (k, v) :: dropControls r

/-- The boolean value of a control option: the caller's value (by Python
truthiness) when supplied, the parameter default otherwise. -/
def kwBoolOpt (kw : List (String × V)) (name : String) (dflt : Bool) : Bool :=
  match kwFind kw name with
  | some v => truthy v
  | none => dflt

/-- The `cache_nonce` value: the caller's, or the default `None`. -/
def kwNonce (kw : List (String × V)) : V :=
  match kwFind kw "cache_nonce" with
  | some v => v
  | none => V.vnone

/-- A call of the wrapped computation as the caller writes it: positional
arguments plus one keyword-argument list, from which Python's binding of
`wrapper(*args, use_cache=True, refresh_cache=False, cache_nonce=None,
use_dill=False, **kwargs)` extracts the four control options and forwards
the rest. -/
def wrapperCall (directory funcName : String)
    (f : List V → List (String × V) → V) (dillAvailable : Bool)
    (args : List V) (allKw : List (String × V)) (st : WState) :
    WState × Except CacheErr V :=
  wrapper directory funcName f dillAvailable args (dropControls allKw)
    (kwBoolOpt allKw "use_cache" true) (kwBoolOpt allKw "refresh_cache" false)
    (kwNonce allKw) (kwBoolOpt allKw "use_dill" false) st

/-! ## Concrete computations used by the claim checks -/

/-- The `square(x) = x * x` computation of the spec's end-to-end test. -/
def squareFn : List V → List (String × V) → V
  | V.vint n :: _, _ => V.vint (n * n)
  | _, _ => V.vnone

/-- The record path of `square(4)` under `/tmp/hashcache`. -/
def c1Path : String :=
  "/tmp/hashcache" ++ "/" ++ recordFileName (enc (sigVal "square" [V.vint 4] [] V.vnone))

/-! ## Claims -/

/-- C1: the claim states that with `use_cache=false` no record file is read
or written and the computation always runs.  The code contradicts the claim
(and the decorator's own docstring, which says the cache "will not" be
used): the store block after the recomputation is not guarded by
`use_cache`, so the wrapper always writes the record file.  This theorem
evaluates the code at the failing input `square(4)` with `use_cache=false`:
the computation runs and its result is returned (as claimed), but a record
file is created on an initially empty cache directory, and with a
pre-existing record holding a different value the call also overwrites it. -/
theorem C1_store_performed :
    (wrapper "/tmp/hashcache" "square" squareFn true [V.vint 4] [] false false
        V.vnone false ⟨[], 0, []⟩).2 = Except.ok (V.vint 16) ∧
    (wrapper "/tmp/hashcache" "square" squareFn true [V.vint 4] [] false false
        V.vnone false ⟨[], 0, []⟩).1.calls = 1 ∧
    fsFind (wrapper "/tmp/hashcache" "square" squareFn true [V.vint 4] [] false false
        V.vnone false ⟨[], 0, []⟩).1.fs c1Path = some (enc (V.vint 16)) ∧
    (wrapper "/tmp/hashcache" "square" squareFn true [V.vint 4] [] false false
        V.vnone false ⟨[(c1Path, enc (V.vint 999))], 0, []⟩).2 = Except.ok (V.vint 16) ∧
    fsFind (wrapper "/tmp/hashcache" "square" squareFn true [V.vint 4] [] false false
        V.vnone false ⟨[(c1Path, enc (V.vint 999))], 0, []⟩).1.fs c1Path
      = some (enc (V.vint 16)) :=
  ⟨rfl, rfl, rfl, rfl, rfl⟩

/-- C7: with `use_cache=true` and `refresh_cache=true` the lookup is
skipped no matter what the cache holds, the underlying computation runs
(the call counter increases), and the fresh result is stored, overwriting
any prior record at the key. -/
theorem C7_refresh_recomputes_and_overwrites
    (dir fname : String) (f : List V → List (String × V) → V) (dA : Bool)
    (args : List V) (kwargs : List (String × V)) (nonce : V) (st : WState)
    (hs : picklable (sigVal fname args kwargs nonce) = true)
    (hr : picklable (f args kwargs) = true) :
    wrapper dir fname f dA args kwargs true true nonce false st =
      (⟨fsWrite
          (fsWrite st.fs (dir ++ "/" ++ recordFileName (enc (sigVal fname args kwargs nonce))) [])
          (dir ++ "/" ++ recordFileName (enc (sigVal fname args kwargs nonce)))
          (enc (f args kwargs)),
        st.calls + 1, st.log⟩,
       Except.ok (f args kwargs)) ∧
    fsFind (wrapper dir fname f dA args kwargs true true nonce false st).1.fs
        (dir ++ "/" ++ recordFileName (enc (sigVal fname args kwargs nonce)))
      = some (enc (f args kwargs)) := by
  have h1 : wrapper dir fname f dA args kwargs true true nonce false st =
      (⟨fsWrite
          (fsWrite st.fs (dir ++ "/" ++ recordFileName (enc (sigVal fname args kwargs nonce))) [])
          (dir ++ "/" ++ recordFileName (enc (sigVal fname args kwargs nonce)))
          (enc (f args kwargs)),
        st.calls + 1, st.log⟩,
       Except.ok (f args kwargs)) := by
    simp [wrapper, pickleDumps, hs, computeAndStore, storeRecord, hr]
  refine ⟨h1, ?_⟩
  rw [h1]
  exact fsFind_fsWrite_self _ _ _

/-- C7 witness: `square(4)` with `refresh_cache=true` over a cache already
holding a (different) valid record at the key: the computation runs, its
fresh result is returned, and the record is overwritten. -/
theorem C7_witness :
    wrapper "/tmp/hashcache" "square" squareFn true [V.vint 4] [] true true
        V.vnone false ⟨[(c1Path, enc (V.vint 999))], 3, []⟩ =
      (⟨fsWrite (fsWrite [(c1Path, enc (V.vint 999))] c1Path []) c1Path
          (enc (V.vint 16)), 4, []⟩,
       Except.ok (V.vint 16)) ∧
    fsFind (wrapper "/tmp/hashcache" "square" squareFn true [V.vint 4] [] true true
        V.vnone false ⟨[(c1Path, enc (V.vint 999))], 3, []⟩).1.fs c1Path
      = some (enc (V.vint 16)) :=
  C7_refresh_recomputes_and_overwrites "/tmp/hashcache" "square" squareFn true
    [V.vint 4] [] V.vnone ⟨[(c1Path, enc (V.vint 999))], 3, []⟩ rfl rfl

/-- C8: requesting the dill serializer when dill is unavailable makes the
call fail immediately with the dependency error; the state (filesystem,
call counter, log) is untouched and nothing is computed or stored — in
particular there is no silent fall-back to the pickle serializer. -/
theorem C8_dill_missing_fails (dir fname : String)
    (f : List V → List (String × V) → V) (args : List V)
    (kwargs : List (String × V)) (uc rc : Bool) (nonce : V) (st : WState) :
    wrapper dir fname f false args kwargs uc rc nonce true st =
      (st, Except.error CacheErr.dependencyMissingError) := rfl

/-- A computation returning an unpicklable value (e.g. a lambda). -/
def c2Fn : List V → List (String × V) → V := fun _ _ => V.vobj 0 false

/-- The record path of the `C2` scenario's signature. -/
def c2Path : String :=
  "/c" ++ "/" ++ recordFileName (enc (sigVal "f" [] [] V.vnone))

/-- C2 counterexample: the claim says a failed store leaves the cache
unmodified and an existing record keeps its previous bytes.  Concretely:
the cache holds a valid record (the encoding of `7`) at the key; a
refreshing call whose computation returns an unserializable value fails
with the serialization error as claimed, but the record file now holds
`[]` — `open(path, "wb")` truncated it before `pickle.dump` failed — and
its previous bytes are gone. -/
theorem C2_counterexample :
    (wrapper "/c" "f" c2Fn true [] [] true true V.vnone false
        ⟨[(c2Path, enc (V.vint 7))], 0, []⟩).2
      = Except.error CacheErr.serializationError ∧
    fsFind (wrapper "/c" "f" c2Fn true [] [] true true V.vnone false
        ⟨[(c2Path, enc (V.vint 7))], 0, []⟩).1.fs c2Path = some [] ∧
    enc (V.vint 7) ≠ [] :=
  ⟨rfl, rfl, by decide⟩

/-- C2 amended: storing an unserializable value fails with the
serialization error, but the store is modified: the record file at the key
is truncated by `open(path, "wb")` before serialization runs, so an
existing record loses its previous bytes and an empty (truncated) file
remains at the key. -/
theorem C2_store_error_truncates (fs : Fs) (path : String) (v : V)
    (h : picklable v = false) :
    storeRecord fs path v =
      (fsWrite fs path [], Except.error CacheErr.serializationError) ∧
    fsFind (storeRecord fs path v).1 path = some [] := by
  have h1 : storeRecord fs path v =
      (fsWrite fs path [], Except.error CacheErr.serializationError) := by
    simp [storeRecord, pickleDumps, h]
  refine ⟨h1, ?_⟩
  rw [h1]
  exact fsFind_fsWrite_self _ _ _

/-- C2 witness: storing an unpicklable object over an existing record
fails and leaves a truncated file. -/
theorem C2_witness :
    storeRecord [("/c/k.pkl", [1, 2, 3])] "/c/k.pkl" (V.vobj 0 false) =
      (fsWrite [("/c/k.pkl", [1, 2, 3])] "/c/k.pkl" [],
       Except.error CacheErr.serializationError) ∧
    fsFind (storeRecord [("/c/k.pkl", [1, 2, 3])] "/c/k.pkl"
        (V.vobj 0 false)).1 "/c/k.pkl" = some [] :=
  C2_store_error_truncates [("/c/k.pkl", [1, 2, 3])] "/c/k.pkl"
    (V.vobj 0 false) rfl

/-- C3: when the record file at the key exists but its bytes fail to
deserialize (the zero-byte file included), a non-refreshing cached call
logs the warning naming the path (and nothing else), raises nothing, and
falls through: the computation runs once, its result is returned, and the
corrupted record is overwritten with the fresh encoding.  The second
conjunct exhibits the warning text as containing the path. -/
theorem C3_corrupt_record_recovers
    (dir fname : String) (f : List V → List (String × V) → V) (dA : Bool)
    (args : List V) (kwargs : List (String × V)) (nonce : V) (st : WState)
    (bs : List Nat)
    (hs : picklable (sigVal fname args kwargs nonce) = true)
    (hf : fsFind st.fs
      (dir ++ "/" ++ recordFileName (enc (sigVal fname args kwargs nonce))) = some bs)
    (hc : pickleLoads bs = none)
    (hr : picklable (f args kwargs) = true) :
    wrapper dir fname f dA args kwargs true false nonce false st =
      (⟨fsWrite
          (fsWrite st.fs (dir ++ "/" ++ recordFileName (enc (sigVal fname args kwargs nonce))) [])
          (dir ++ "/" ++ recordFileName (enc (sigVal fname args kwargs nonce)))
          (enc (f args kwargs)),
        st.calls + 1,
        st.log ++ [corruptWarning
          (dir ++ "/" ++ recordFileName (enc (sigVal fname args kwargs nonce)))]⟩,
       Except.ok (f args kwargs)) ∧
    corruptWarning (dir ++ "/" ++ recordFileName (enc (sigVal fname args kwargs nonce)))
      = "Cache file " ++ (dir ++ "/" ++ recordFileName (enc (sigVal fname args kwargs nonce)))
        ++ " is corrupted or empty. Recomputing result." ∧
    fsFind (wrapper dir fname f dA args kwargs true false nonce false st).1.fs
        (dir ++ "/" ++ recordFileName (enc (sigVal fname args kwargs nonce)))
      = some (enc (f args kwargs)) := by
  have h1 : wrapper dir fname f dA args kwargs true false nonce false st =
      (⟨fsWrite
          (fsWrite st.fs (dir ++ "/" ++ recordFileName (enc (sigVal fname args kwargs nonce))) [])
          (dir ++ "/" ++ recordFileName (enc (sigVal fname args kwargs nonce)))
          (enc (f args kwargs)),
        st.calls + 1,
        st.log ++ [corruptWarning
          (dir ++ "/" ++ recordFileName (enc (sigVal fname args kwargs nonce)))]⟩,
       Except.ok (f args kwargs)) := by
    simp [wrapper, pickleDumps, hs, lookupRecord, hf, hc, computeAndStore,
      storeRecord, hr]
  refine ⟨h1, rfl, ?_⟩
  rw [h1]
  exact fsFind_fsWrite_self _ _ _

/-- C3 witness: a zero-byte record file for `square(4)`: the call returns
the recomputed result, logs the path-naming warning once, and overwrites
the empty file with the valid encoding. -/
theorem C3_witness :
    wrapper "/tmp/hashcache" "square" squareFn true [V.vint 4] [] true false
        V.vnone false ⟨[(c1Path, [])], 0, []⟩ =
      (⟨fsWrite (fsWrite [(c1Path, [])] c1Path []) c1Path (enc (V.vint 16)),
        1, [corruptWarning c1Path]⟩,
       Except.ok (V.vint 16)) ∧
    corruptWarning c1Path
      = "Cache file " ++ c1Path ++ " is corrupted or empty. Recomputing result." ∧
    fsFind (wrapper "/tmp/hashcache" "square" squareFn true [V.vint 4] [] true false
        V.vnone false ⟨[(c1Path, [])], 0, []⟩).1.fs c1Path
      = some (enc (V.vint 16)) :=
  C3_corrupt_record_recovers "/tmp/hashcache" "square" squareFn true
    [V.vint 4] [] V.vnone ⟨[(c1Path, [])], 0, []⟩ [] rfl rfl rfl rfl

/-- C5: on a cache with no record at the key, a cached non-refreshing call
computes and stores, and an identical second call returns the stored
result without running the computation again: across both calls the
underlying computation runs exactly once, and both calls return the same
result. -/
theorem C5_computes_exactly_once
    (dir fname : String) (f : List V → List (String × V) → V) (dA : Bool)
    (args : List V) (kwargs : List (String × V)) (nonce : V) (st : WState)
    (hs : picklable (sigVal fname args kwargs nonce) = true)
    (hr : picklable (f args kwargs) = true)
    (h0 : fsFind st.fs
      (dir ++ "/" ++ recordFileName (enc (sigVal fname args kwargs nonce))) = none) :
    wrapper dir fname f dA args kwargs true false nonce false st =
      (⟨fsWrite
          (fsWrite st.fs (dir ++ "/" ++ recordFileName (enc (sigVal fname args kwargs nonce))) [])
          (dir ++ "/" ++ recordFileName (enc (sigVal fname args kwargs nonce)))
          (enc (f args kwargs)),
        st.calls + 1, st.log⟩,
       Except.ok (f args kwargs)) ∧
    wrapper dir fname f dA args kwargs true false nonce false
        (wrapper dir fname f dA args kwargs true false nonce false st).1 =
      ((wrapper dir fname f dA args kwargs true false nonce false st).1,
       Except.ok (f args kwargs)) ∧
    (wrapper dir fname f dA args kwargs true false nonce false
        (wrapper dir fname f dA args kwargs true false nonce false st).1).1.calls
      = st.calls + 1 := by
  have h1 : wrapper dir fname f dA args kwargs true false nonce false st =
      (⟨fsWrite
          (fsWrite st.fs (dir ++ "/" ++ recordFileName (enc (sigVal fname args kwargs nonce))) [])
          (dir ++ "/" ++ recordFileName (enc (sigVal fname args kwargs nonce)))
          (enc (f args kwargs)),
        st.calls + 1, st.log⟩,
       Except.ok (f args kwargs)) := by
    simp [wrapper, pickleDumps, hs, lookupRecord, h0, computeAndStore,
      storeRecord, hr]
  have h2 : wrapper dir fname f dA args kwargs true false nonce false
      (wrapper dir fname f dA args kwargs true false nonce false st).1 =
      ((wrapper dir fname f dA args kwargs true false nonce false st).1,
       Except.ok (f args kwargs)) := by
    rw [h1]
    simp [wrapper, pickleDumps, hs, lookupRecord, fsFind_fsWrite_self,
      pickleLoads_enc]
  refine ⟨h1, h2, ?_⟩
  rw [h2, h1]

/-- C5 witness: two `square(4)` calls starting from an empty cache: first
stores, second hits; the call counter ends at exactly one. -/
theorem C5_witness :
    wrapper "/tmp/hashcache" "square" squareFn true [V.vint 4] [] true false
        V.vnone false ⟨[], 0, []⟩ =
      (⟨fsWrite (fsWrite [] c1Path []) c1Path (enc (V.vint 16)), 1, []⟩,
       Except.ok (V.vint 16)) ∧
    wrapper "/tmp/hashcache" "square" squareFn true [V.vint 4] [] true false
        V.vnone false
        (wrapper "/tmp/hashcache" "square" squareFn true [V.vint 4] [] true false
          V.vnone false ⟨[], 0, []⟩).1 =
      ((wrapper "/tmp/hashcache" "square" squareFn true [V.vint 4] [] true false
          V.vnone false ⟨[], 0, []⟩).1,
       Except.ok (V.vint 16)) ∧
    (wrapper "/tmp/hashcache" "square" squareFn true [V.vint 4] [] true false
        V.vnone false
        (wrapper "/tmp/hashcache" "square" squareFn true [V.vint 4] [] true false
          V.vnone false ⟨[], 0, []⟩).1).1.calls = 1 :=
  C5_computes_exactly_once "/tmp/hashcache" "square" squareFn true
    [V.vint 4] [] V.vnone ⟨[], 0, []⟩ rfl rfl rfl

/-- Project the value out of a lookup outcome (`Option<Record>`). -/
def foundValue : LookupOutcome → Option V
  | LookupOutcome.hit v => some v
  | LookupOutcome.missAbsent => none
  | LookupOutcome.missCorrupt => none

/-- C6: store-then-lookup roundtrip — after storing a serializable value
at a key, looking the key up deserializes the record back to exactly the
stored value. -/
theorem C6_store_lookup_roundtrip (fs : Fs) (path : String) (v : V)
    (h : picklable v = true) :
    foundValue (lookupRecord (storeRecord fs path v).1 path) = some v := by
  simp [storeRecord, pickleDumps, h, lookupRecord, fsFind_fsWrite_self,
    pickleLoads_enc, foundValue]

/-- C6 witness: roundtrip of a concrete structured value. -/
theorem C6_witness :
    foundValue (lookupRecord
      (storeRecord [] "/c/k.pkl"
        (V.vlist (V.lcons (V.vstr "hi") (V.lcons (V.vint (-3)) V.lnil)))).1
      "/c/k.pkl")
      = some (V.vlist (V.lcons (V.vstr "hi") (V.lcons (V.vint (-3)) V.lnil))) :=
  C6_store_lookup_roundtrip [] "/c/k.pkl"
    (V.vlist (V.lcons (V.vstr "hi") (V.lcons (V.vint (-3)) V.lnil))) rfl

/-! ## Keyword-argument mappings (for C4 and C10) -/

theorem listV_inj : ∀ {l1 l2 : List V}, listV l1 = listV l2 → l1 = l2 := by
  intro l1
  induction l1 with
  | nil =>
    intro l2 h
    cases l2 with
    | nil => rfl
    | cons b s => simp [listV] at h
  | cons a r ih =>
    intro l2 h
    cases l2 with
    | nil => simp [listV] at h
    | cons b s =>
      simp only [listV, V.lcons.injEq] at h
      rw [h.1, ih h.2]

theorem entsV_inj : ∀ {l1 l2 : List (String × V)}, entsV l1 = entsV l2 → l1 = l2 := by
  intro l1
  induction l1 with
  | nil =>
    intro l2 h
    cases l2 with
    | nil => rfl
    | cons b s =>
      obtain ⟨bk, bv⟩ := b
      simp [entsV] at h
  | cons a r ih =>
    intro l2 h
    obtain ⟨ak, av⟩ := a
    cases l2 with
    | nil => simp [entsV] at h
    | cons b s =>
      obtain ⟨bk, bv⟩ := b
      simp only [entsV, V.econs.injEq] at h
      rw [h.1, h.2.1, ih h.2.2]

/-- Whether a name is absent from a keyword list. -/
theorem kwFind_eq_none (kw : List (String × V)) (q : String)
    (h : q ∉ kw.map Prod.fst) : kwFind kw q = none := by
  induction kw with
  | nil => rfl
  | cons hd r ih =>
    obtain ⟨hk, hv⟩ := hd
    simp only [List.map_cons, List.mem_cons, not_or] at h
    simp only [kwFind]
    rw [if_neg (fun e => h.1 e.symm)]
    exact ih h.2

/-- Decidable check that two keyword lists define the same name-to-value
mapping (the "same keyword-argument mapping, regardless of order" notion
of the claim). -/
def kwSameMapping (k1 k2 : List (String × V)) : Bool :=
  (k1.map Prod.fst).all (fun k => decide (kwFind k1 k = kwFind k2 k)) &&
    (k2.map Prod.fst).all (fun k => decide (kwFind k2 k = kwFind k1 k))

/-- Soundness of `kwSameMapping`: it implies pointwise equal lookups. -/
theorem kwSameMapping_sound (k1 k2 : List (String × V))
    (h : kwSameMapping k1 k2 = true) (q : String) :
    kwFind k1 q = kwFind k2 q := by
  simp only [kwSameMapping, Bool.and_eq_true, List.all_eq_true] at h
  obtain ⟨h1, h2⟩ := h
  by_cases hq1 : q ∈ k1.map Prod.fst
  · exact of_decide_eq_true (h1 q hq1)
  · by_cases hq2 : q ∈ k2.map Prod.fst
    · exact (of_decide_eq_true (h2 q hq2)).symm
    · rw [kwFind_eq_none k1 q hq1, kwFind_eq_none k2 q hq2]

/-- Keyword arguments `a=1, b=2` as supplied in that order. -/
def c4Kw1 : List (String × V) := [("a", V.vint 1), ("b", V.vint 2)]

/-- The same keyword-argument mapping supplied in the opposite order. -/
def c4Kw2 : List (String × V) := [("b", V.vint 2), ("a", V.vint 1)]

/-- C4 counterexample: the claim asserts that equal Call Signatures — with
keyword arguments compared as a mapping, regardless of supplied order —
serialize to identical bytes because the encoder sorts the names.  The
code sorts nothing: `pickle.dumps` serializes the `kwargs` dict in
insertion order.  Concretely, `a=1, b=2` and `b=2, a=1` are the same
mapping but serialize to different byte strings, and their cache keys
differ too. -/
theorem C4_counterexample :
    kwSameMapping c4Kw1 c4Kw2 = true ∧
    kwFind c4Kw1 "a" = kwFind c4Kw2 "a" ∧
    kwFind c4Kw1 "b" = kwFind c4Kw2 "b" ∧
    enc (sigVal "f" [] c4Kw1 V.vnone) ≠ enc (sigVal "f" [] c4Kw2 V.vnone) ∧
    keyHex (enc (sigVal "f" [] c4Kw1 V.vnone))
      ≠ keyHex (enc (sigVal "f" [] c4Kw2 V.vnone)) :=
  ⟨rfl, rfl, rfl, by decide, by decide⟩

/-- C4 amended: the Key Encoder is deterministic and injective on Call
Signatures taken with their keyword arguments in the order the caller
supplied them: two signatures serialize to identical bytes exactly when
the name, the positional arguments, the keyword-argument list (same names,
same values, same supplied order) and the nonce all coincide; equal
signatures in this sense also produce equal cache keys.  No canonical
reordering of keyword names is applied. -/
theorem C4_encoder_deterministic_same_order
    (n1 n2 : String) (a1 a2 : List V) (k1 k2 : List (String × V)) (o1 o2 : V) :
    (enc (sigVal n1 a1 k1 o1) = enc (sigVal n2 a2 k2 o2) ↔
      (n1 = n2 ∧ a1 = a2 ∧ k1 = k2 ∧ o1 = o2)) ∧
    (n1 = n2 → a1 = a2 → k1 = k2 → o1 = o2 →
      keyHex (enc (sigVal n1 a1 k1 o1)) = keyHex (enc (sigVal n2 a2 k2 o2))) := by
  constructor
  · constructor
    · intro h
      have h2 := enc_injective h
      simp only [sigVal, V.vlist.injEq, V.lcons.injEq, V.vstr.injEq,
        V.vtuple.injEq, V.vdict.injEq] at h2
      exact ⟨h2.1, listV_inj h2.2.1, entsV_inj h2.2.2.1, h2.2.2.2.1⟩
    · rintro ⟨rfl, rfl, rfl, rfl⟩
      rfl
  · rintro rfl rfl rfl rfl
    rfl

/-- C4 witness: the amended determinism at a concrete signature — the same
kwargs in the same supplied order yields the same bytes and the same key. -/
theorem C4_witness :
    enc (sigVal "f" [] c4Kw1 V.vnone) = enc (sigVal "f" [] c4Kw1 V.vnone) ∧
    keyHex (enc (sigVal "f" [] c4Kw1 V.vnone))
      = keyHex (enc (sigVal "f" [] c4Kw1 V.vnone)) :=
  ⟨(C4_encoder_deterministic_same_order "f" "f" [] [] c4Kw1 c4Kw1
      V.vnone V.vnone).1.mpr ⟨rfl, rfl, rfl, rfl⟩,
   (C4_encoder_deterministic_same_order "f" "f" [] [] c4Kw1 c4Kw1
      V.vnone V.vnone).2 rfl rfl rfl rfl⟩

/-! ## Record path format (C9) -/

theorem byteHex_flatten_length (bs : List Nat) :
    ((bs.map byteHexChars).flatten).length = 2 * bs.length := by
  induction bs with
  | nil => rfl
  | cons b r ih =>
    simp only [List.map_cons, List.flatten_cons, List.length_append, ih,
      byteHexChars, List.length_cons, List.length_nil, List.length_cons]
    omega

theorem md5DigestBytes_length (msg : List Nat) :
    (md5DigestBytes msg).length = 16 := by
  rcases h : md5Words msg with ⟨a, b, c, d⟩
  simp [md5DigestBytes, h, wordLE]

/-- The hex digest always has 32 characters: it is the hexadecimal
rendering of a 128-bit (16-byte) MD5 digest. -/
theorem keyHex_length (ks : List Nat) : (keyHex ks).length = 32 := by
  have h : (keyHex ks).length
      = (((md5DigestBytes (tokensToBytes ks)).map byteHexChars).flatten).length := rfl
  rw [h, byteHex_flatten_length, md5DigestBytes_length]

/-- C9 counterexample: at the `square(4)` signature, the record filename
the code builds is not the hex digest followed by `.cache`. -/
theorem C9_counterexample :
    recordFileName (enc (sigVal "square" [V.vint 4] [] V.vnone)) ≠
      keyHex (enc (sigVal "square" [V.vint 4] [] V.vnone)) ++ ".cache" := by
  decide

/-- C9 amended: every cache record is persisted at
`directory/<key>.pkl` where `<key>` is the 32-hex-character digest of the
128-bit MD5 hash of the serialized Call Signature: the filename is the hex
digest followed by the extension `.pkl`, never `.cache`. -/
theorem C9_record_name_format (ks : List Nat) :
    recordFileName ks = keyHex ks ++ ".pkl" ∧
    (keyHex ks).length = 32 ∧
    recordFileName ks ≠ keyHex ks ++ ".cache" := by
  refine ⟨rfl, keyHex_length ks, fun h => ?_⟩
  have h2 : keyHex ks ++ ".pkl" = keyHex ks ++ ".cache" := h
  have hl := congrArg String.length h2
  rw [String.length_append, String.length_append] at hl
  have e1 : (".pkl" : String).length = 4 := rfl
  have e2 : (".cache" : String).length = 6 := rfl
  omega

/-! ## Control options are consumed, not forwarded (C10) -/

theorem kwFind_dropControls_control (allKw : List (String × V)) (k : String)
    (h : controlNames.contains k = true) :
    kwFind (dropControls allKw) k = none := by
  induction allKw with
  | nil => rfl
  | cons hd r ih =>
    obtain ⟨hk, hv⟩ := hd
    simp only [dropControls]
    by_cases hc : controlNames.contains hk
    · rw [if_pos hc]
      exact ih
    · rw [if_neg hc]
      simp only [kwFind]
      rw [if_neg (fun e => hc (by rw [e]; exact h))]
      exact ih

theorem kwFind_dropControls_other (allKw : List (String × V)) (k : String)
    (h : controlNames.contains k = false) :
    kwFind (dropControls allKw) k = kwFind allKw k := by
  induction allKw with
  | nil => rfl
  | cons hd r ih =>
    obtain ⟨hk, hv⟩ := hd
    simp only [dropControls]
    by_cases hc : controlNames.contains hk
    · rw [if_pos hc, ih]
      simp only [kwFind]
      rw [if_neg (fun e => by rw [e] at hc; rw [hc] at h; cases h)]
    · rw [if_neg hc]
      simp only [kwFind]
      by_cases he : hk = k
      · rw [if_pos he, if_pos he]
      · rw [if_neg he, if_neg he, ih]

/-- C10: the four control options are consumed by the wrapper's
keyword-only parameters and never forwarded: the keyword list passed on to
the underlying computation contains none of the four control names while
preserving every other keyword argument (same lookup result, same order),
and when the computation runs it is applied to exactly the caller's
positional arguments and that filtered keyword list — witnessed here on a
forced (refreshing) call, whose result is the computation's value on
`(args, dropControls allKw)` and which bumps the invocation counter. -/
theorem C10_controls_consumed_not_forwarded
    (dir fname : String) (f : List V → List (String × V) → V) (dA : Bool)
    (args : List V) (allKw : List (String × V)) (st : WState)
    (hs : picklable (sigVal fname args (dropControls allKw) (kwNonce allKw)) = true)
    (hr : picklable (f args (dropControls allKw)) = true)
    (hrc : kwBoolOpt allKw "refresh_cache" false = true)
    (hud : kwBoolOpt allKw "use_dill" false = false) :
    (∀ k, controlNames.contains k = true → kwFind (dropControls allKw) k = none) ∧
    (∀ k, controlNames.contains k = false →
      kwFind (dropControls allKw) k = kwFind allKw k) ∧
    (wrapperCall dir fname f dA args allKw st).2
      = Except.ok (f args (dropControls allKw)) ∧
    (wrapperCall dir fname f dA args allKw st).1.calls = st.calls + 1 := by
  refine ⟨fun k hk => kwFind_dropControls_control allKw k hk,
    fun k hk => kwFind_dropControls_other allKw k hk, ?_, ?_⟩
  · simp [wrapperCall, hrc, hud, wrapper, pickleDumps, hs, computeAndStore,
      storeRecord, hr]
  · simp [wrapperCall, hrc, hud, wrapper, pickleDumps, hs, computeAndStore,
      storeRecord, hr]

/-- The caller's keyword list for the C10 witness: one control option and
one ordinary keyword argument. -/
def c10Kw : List (String × V) := [("refresh_cache", V.vbool true), ("x", V.vint 5)]

/-- A computation that reads the keyword argument `x` it receives. -/
def c10Fn : List V → List (String × V) → V := fun _ kw =>
  match kwFind kw "x" with
  | some v => v
  | none => V.vnone

/-- C10 witness: calling with `refresh_cache=True, x=5`: the computation
runs once, receives `x` (its result is the value of `x`) and none of the
control names. -/
theorem C10_witness :
    (wrapperCall "/c" "g" c10Fn false [] c10Kw ⟨[], 0, []⟩).2
      = Except.ok (c10Fn [] (dropControls c10Kw)) ∧
    (wrapperCall "/c" "g" c10Fn false [] c10Kw ⟨[], 0, []⟩).1.calls = 0 + 1 ∧
    kwFind (dropControls c10Kw) "refresh_cache" = none ∧
    kwFind (dropControls c10Kw) "x" = kwFind c10Kw "x" :=
  ⟨(C10_controls_consumed_not_forwarded "/c" "g" c10Fn false [] c10Kw
      ⟨[], 0, []⟩ rfl rfl rfl rfl).2.2.1,
   (C10_controls_consumed_not_forwarded "/c" "g" c10Fn false [] c10Kw
      ⟨[], 0, []⟩ rfl rfl rfl rfl).2.2.2,
   (C10_controls_consumed_not_forwarded "/c" "g" c10Fn false [] c10Kw
      ⟨[], 0, []⟩ rfl rfl rfl rfl).1 "refresh_cache" rfl,
   (C10_controls_consumed_not_forwarded "/c" "g" c10Fn false [] c10Kw
      ⟨[], 0, []⟩ rfl rfl rfl rfl).2.1 "x" rfl⟩

end HashCache
